import Mathlib

/-
Verification development for the wishes backend service.

The relational state is embedded shallowly: a table is a list of row
structures, a nullable foreign key is an `Option Nat`, and each request
handler or scheduled scan becomes a pure function from the table state to
an `Except`/result value together with the updated state.  Row identity
follows the primary key, so the ORM's "mutate the fetched object and
commit" pattern is rendered as an update of the row with the matching id.
-/

namespace Wishes

/-- HTTP-level failure outcomes of the handlers.  `integrityError` stands for
a database constraint violation surfacing at commit time, `noResult` for the
ORM's one-row lookup failing. -/
inductive Err where
  | notFound
  | forbidden
  | integrityError
  | noResult
deriving DecidableEq

/-- One row of the `wish` table (the columns the handlers under scrutiny
read or write). -/
structure Wish where
  id : Nat
  user_id : Nat
  reserved_by_id : Option Nat
  is_archived : Bool
  is_reservation_notification_sent : Bool
deriving DecidableEq

/-- `Wish.get_active_wish_query`: `select(Wish).where(~Wish.is_archived)`. -/
def get_active_wish_query (ws : List Wish) : List Wish :=
  ws.filter (fun w => !w.is_archived)

/-- Committing a mutation of the ORM object with primary key `wid`:
the row with that id is replaced by `f` applied to it. -/
def updateWish (ws : List Wish) (wid : Nat) (f : Wish → Wish) : List Wish :=
  ws.map (fun w => if w.id = wid then f w else w)

/-- `reserve_wish` (POST /wishes/{wish_id}/reserve): looks the wish up through
the active-wish query, rejects the owner and foreign reservations, then sets
`reserved_by` to the caller. -/
def reserve_wish (ws : List Wish) (wish_id : Nat) (current_user : Nat) :
    Except Err (List Wish) :=
  match (get_active_wish_query ws).find? (fun w => decide (w.id = wish_id)) with
  | none => .error .notFound
  | some wish =>
    if wish.user_id = current_user then .error .forbidden
    else if wish.reserved_by_id.isSome ∧ wish.reserved_by_id ≠ some current_user then
      .error .forbidden
    else .ok (updateWish ws wish_id (fun w => { w with reserved_by_id := some current_user }))

/-- `cancel_wish_reservation` (POST /wishes/{wish_id}/cancel_reservation):
looks the wish up without the archived filter, rejects a foreign reservation,
then clears `reserved_by`. -/
def cancel_wish_reservation (ws : List Wish) (wish_id : Nat) (current_user : Nat) :
    Except Err (List Wish) :=
  match ws.find? (fun w => decide (w.id = wish_id)) with
  | none => .error .notFound
  | some wish =>
    if wish.reserved_by_id.isSome ∧ wish.reserved_by_id ≠ some current_user then
      .error .forbidden
    else .ok (updateWish ws wish_id (fun w => { w with reserved_by_id := none }))

/-- `get_wish` (GET /wishes/{wish_id}): absent wishes and archived wishes of
other owners yield 404, everything else is returned. -/
def get_wish (ws : List Wish) (wish_id : Nat) (user : Nat) : Except Err Wish :=
  match ws.find? (fun w => decide (w.id = wish_id)) with
  | none => .error .notFound
  | some wish =>
    if wish.is_archived ∧ wish.user_id ≠ user then .error .notFound
    else .ok wish

/-- The primary-key discipline of the `wish` table: ids are pairwise distinct. -/
abbrev WishIdsNodup (ws : List Wish) : Prop := (ws.map Wish.id).Nodup

/-!  Follow graph: `user_following` is a join table with composite primary key
(follower_id, followed_id) and the check constraint
`follower_id <> followed_id`.  A user's `follows` collection is the list of
targets of the edges leaving them. -/

/-- `follow_user` (POST /follow/{follow_user_id}): fetches the target with
`scalar_one` (error when absent), returns early when the edge is already
present, otherwise appends the edge; the commit raises the check constraint
`follower_id <> followed_id` on a self-edge. -/
def follow_user (users : List Nat) (edges : List (Nat × Nat)) (u v : Nat) :
    Except Err (List (Nat × Nat)) :=
  if v ∈ users then
    if (u, v) ∈ edges then .ok edges
    else if u = v then .error .integrityError
    else .ok (edges ++ [(u, v)])
  else .error .noResult

/-- `unfollow_user` (POST /unfollow/{unfollow_user_id}): fetches the target
with `scalar_one`, returns early when the edge is absent, otherwise removes
it. -/
def unfollow_user (users : List Nat) (edges : List (Nat × Nat)) (u v : Nat) :
    Except Err (List (Nat × Nat)) :=
  if v ∈ users then
    if (u, v) ∈ edges then .ok (edges.erase (u, v))
    else .ok edges
  else .error .noResult

/-- No user follows themselves (what the check constraint guarantees). -/
def NoSelfEdge (edges : List (Nat × Nat)) : Prop := ∀ u, (u, u) ∉ edges

/-!  User rows.  `display_name` is the sequence of character codes of the
name; push tokens are opaque and modelled as numbers. -/

/-- A proleptic Gregorian calendar date. -/
structure YMD where
  year : Nat
  month : Nat
  day : Nat
deriving DecidableEq

/-- One row of the `user` table (the columns the verified paths touch). -/
structure UserRow where
  id : Nat
  display_name : List Nat
  firebase_push_token : Option Nat
  birth_date : Option YMD
  pre_bday_push_for_followers_last_sent_at : Option Int
deriving DecidableEq

/-!  User search (GET /users/search). -/

/-- Python `str.lower` on one character code (ASCII case mapping, which is
also what the database's case-insensitive match applies). -/
def pyLowerChar (c : Nat) : Nat := if 65 ≤ c ∧ c ≤ 90 then c + 32 else c

/-- Python `str.upper` on one character code. -/
def pyUpperChar (c : Nat) : Nat := if 97 ≤ c ∧ c ≤ 122 then c - 32 else c

/-- Python `str.lower`. -/
def strLower (s : List Nat) : List Nat := s.map pyLowerChar

/-- Python `str.capitalize`: first character uppercased, the rest lowered. -/
def strCapitalize : List Nat → List Nat
  | [] => []
  | c :: rest => pyUpperChar c :: strLower rest

/-- Python `str.strip` whitespace classes (space, tab, LF, CR, VT, FF). -/
def isPySpace (c : Nat) : Bool :=
  c = 32 ∨ c = 9 ∨ c = 10 ∨ c = 13 ∨ c = 11 ∨ c = 12

/-- Python `str.strip`. -/
def pyStrip (s : List Nat) : List Nat :=
  ((s.dropWhile isPySpace).reverse.dropWhile isPySpace).reverse

/-- `p` occurs as a contiguous substring of `s`. -/
def isSubstrOf (p s : List Nat) : Bool :=
  (List.range (s.length + 1)).any (fun i => (s.drop i).take p.length == p)

/-- SQL `LIKE` pattern matching: `%` (code 37) matches any sequence, `_`
(code 95) matches exactly one character, anything else matches itself. -/
def likeMatch : List Nat → List Nat → Bool
  | [], s => s.isEmpty
  | p :: ps, s =>
    if p = 37 then s.tails.any (fun t => likeMatch ps t)
    else
      match s with
      | [] => false
      | c :: s' => (decide (p = 95) || p == c) && likeMatch ps s'

/-- SQLAlchemy `column.icontains(pat)` without `autoescape` (as the source
calls it): renders `lower(col) LIKE '%' || lower(pat) || '%'`, so `%` and
`_` inside the query stay active as wildcards. -/
def icontains (col pat : List Nat) : Bool :=
  likeMatch (37 :: (strLower pat ++ [37])) (strLower col)

/-- `search_users` (GET /users/search): strips the query, returns nothing for
an empty result, else filters out the caller, matches the capitalized or the
lowered query case-insensitively against the display name, and keeps the
first 20 rows. -/
def search_users (users : List UserRow) (current_user : Nat) (q : List Nat) :
    List UserRow :=
  let q' := pyStrip q
  if q' = [] then []
  else
    (users.filter (fun u =>
      decide (u.id ≠ current_user) &&
        (icontains u.display_name (strCapitalize q')
          || icontains u.display_name (strLower q')))).take 20

/-!  Reservation-notification scan (`app/notifications.py`). -/

/-- Database state seen by the scans. -/
structure NState where
  users : List UserRow
  wishes : List Wish
deriving DecidableEq

/-- The selection predicate of the scan:
`Wish.reserved_by_id.is_not(None) & ~Wish.is_reservation_notification_sent`. -/
def wishAwaitingReservationNotice (w : Wish) : Bool :=
  w.reserved_by_id.isSome && !w.is_reservation_notification_sent

/-- `send_reservation_notifincations` (name as in the source): selects the
users owning a wish that matches `wishAwaitingReservationNotice`, collects
their push tokens, and then marks as notified every wish whose owner's push
token is in the collected list (`Wish.id.in_(select(Wish.id).join(Wish.user)
.where(User.firebase_push_token.in_(push_tokens)))`).  A `NULL` token is
never in the list (SQL three-valued `IN`).  Returns the new state and the
tokens a push is sent to. -/
def send_reservation_notifincations (st : NState) : NState × List Nat :=
  let users := st.users.filter (fun u =>
    st.wishes.any (fun w => decide (w.user_id = u.id) && wishAwaitingReservationNotice w))
  let push_tokens := users.filterMap (fun u => u.firebase_push_token)
  let wishes' := st.wishes.map (fun w =>
    if st.users.any (fun u => decide (u.id = w.user_id) &&
        (match u.firebase_push_token with
         | some t => decide (t ∈ push_tokens)
         | none => false))
    then { w with is_reservation_notification_sent := true } else w)
  ({ users := st.users, wishes := wishes' }, push_tokens)

/-!  Gregorian calendar arithmetic, as Python's `datetime`/`date` perform it
(proleptic Gregorian, `timedelta(days=n)` advancing day by day). -/

/-- Gregorian leap year. -/
def isLeap (y : Nat) : Bool := (y % 4 = 0 ∧ y % 100 ≠ 0) ∨ y % 400 = 0

/-- Length of a month. -/
def daysInMonth (y m : Nat) : Nat :=
  if m = 2 then (if isLeap y then 29 else 28)
  else if m = 4 ∨ m = 6 ∨ m = 9 ∨ m = 11 then 30
  else 31

/-- The date lies in the calendar (year at least 1, as in Python). -/
def ValidDate (d : YMD) : Prop :=
  1 ≤ d.year ∧ 1 ≤ d.month ∧ d.month ≤ 12 ∧ 1 ≤ d.day ∧
    d.day ≤ daysInMonth d.year d.month

instance (d : YMD) : Decidable (ValidDate d) := by
  unfold ValidDate
  infer_instance

/-- Days in the years before year `y` (year 1 is the first year). -/
def daysBeforeYear (y : Nat) : Nat :=
  365 * (y - 1) + (y - 1) / 4 + (y - 1) / 400 - (y - 1) / 100

/-- Days in the months of year `y` strictly before month `m`. -/
def daysBeforeMonth (y : Nat) : Nat → Nat
  | 0 => 0
  | 1 => 0
  | m + 2 => daysBeforeMonth y (m + 1) + daysInMonth y (m + 1)

/-- Rata-die ordinal of a date: 0001-01-01 has ordinal 1. -/
def toOrd (d : YMD) : Nat :=
  daysBeforeYear d.year + daysBeforeMonth d.year d.month + d.day

/-- The day after `d`. -/
def nextDay (d : YMD) : YMD :=
  if d.day < daysInMonth d.year d.month then ⟨d.year, d.month, d.day + 1⟩
  else if d.month < 12 then ⟨d.year, d.month + 1, 1⟩
  else ⟨d.year + 1, 1, 1⟩

/-- `d + timedelta(days=n)`. -/
def addDays (d : YMD) : Nat → YMD
  | 0 => d
  | n + 1 => nextDay (addDays d n)

/-- A naive `datetime`: a date and the seconds elapsed in that day. -/
structure DT where
  d : YMD
  sec : Nat
deriving DecidableEq

/-- Linearisation of a `datetime` for comparison. -/
def dtVal (x : DT) : Nat := 86400 * toOrd x.d + x.sec

/-- `get_next_birthday` (`cron_scripts/at_noon.py`): builds
`datetime(year=datetime.now().year, month=birth_date.month,
day=birth_date.day)` and, when that moment is already past, adds
`timedelta(days=365)`.  The constructor raises `ValueError` (here `none`)
when the birth month and day do not exist in the current year (February 29
outside leap years). -/
def get_next_birthday (birth_date : YMD) (now : DT) : Option DT :=
  let cy := now.d.year
  if 1 ≤ birth_date.month ∧ birth_date.month ≤ 12 ∧ 1 ≤ birth_date.day ∧
      birth_date.day ≤ daysInMonth cy birth_date.month then
    let nb : DT := ⟨⟨cy, birth_date.month, birth_date.day⟩, 0⟩
    if dtVal nb < dtVal now then some ⟨addDays nb.d 365, 0⟩ else some nb
  else none

/-- The property the spec ascribes to `get_next_birthday`, written from the
spec's words for comparison against the implementation: the result is an
occurrence of the birth date's month and day, it is not in the past, and it
is the earliest such occurrence. -/
def NextBirthdayIsEarliestUpcoming (birth_date : YMD) (now : DT) (r : DT) : Prop :=
  r.d.month = birth_date.month ∧ r.d.day = birth_date.day ∧
  ValidDate r.d ∧ dtVal now ≤ dtVal r ∧
  ∀ y : Nat, ValidDate ⟨y, birth_date.month, birth_date.day⟩ →
    dtVal now ≤ 86400 * toOrd ⟨y, birth_date.month, birth_date.day⟩ →
    toOrd r.d ≤ toOrd ⟨y, birth_date.month, birth_date.day⟩

/-!  Followed-user birthday scan (`cron_scripts/at_noon.py`).  The SQL layer
compares strings built by `concat(year, strftime('-%m-%d', birth_date))`
against bound ISO dates under the BINARY collation, i.e. bytewise. -/

/-- Decimal digits of `n`, as character codes. -/
def digitsOf (n : Nat) : List Nat := (Nat.toDigits 10 n).map Char.toNat

/-- Two-digit zero-padded rendering, as `strftime` emits for `%m`/`%d`. -/
def pad2 (n : Nat) : List Nat := if n < 10 then 48 :: digitsOf n else digitsOf n

/-- `strftime('-%m-%d', d)`. -/
def strftimeMD (d : YMD) : List Nat := 45 :: (pad2 d.month ++ 45 :: pad2 d.day)

/-- `concat(year, strftime('-%m-%d', birth_date))`; SQLite's `concat` treats
the NULL `strftime` result of a NULL birth date as the empty string. -/
def bdayConcat (year : Nat) (bd : Option YMD) : List Nat :=
  digitsOf year ++ (match bd with | none => [] | some b => strftimeMD b)

/-- ISO rendering of a bound `date` parameter. -/
def isoDate (d : YMD) : List Nat := digitsOf d.year ++ strftimeMD d

/-- Bytewise (BINARY collation) string comparison. -/
def memcmpLt : List Nat → List Nat → Bool
  | [], [] => false
  | [], _ :: _ => true
  | _ :: _, [] => false
  | a :: as, b :: bs => if a < b then true else if b < a then false else memcmpLt as bs

def memcmpLe (a b : List Nat) : Bool := memcmpLt a b || a == b

/-- SQL `x BETWEEN lo AND hi`. -/
def sqlBetween (x lo hi : List Nat) : Bool := memcmpLe lo x && memcmpLe x hi

/-- `get_upcoming_birthday_users_condition_q(min_days, max_days)`: the birth
month/day, glued to the current or the next year, falls between `today +
min_days` and `today + max_days`. -/
def get_upcoming_birthday_users_condition_q (today : YMD) (min_days max_days : Nat)
    (bd : Option YMD) : Bool :=
  let lower_limit := isoDate (addDays today min_days)
  let upper_limit := isoDate (addDays today max_days)
  let bday_1 := bdayConcat today.year bd
  let bday_2 := bdayConcat (today.year + 1) bd
  sqlBetween bday_1 lower_limit upper_limit || sqlBetween bday_2 lower_limit upper_limit

set_option linter.unusedVariables false in
/-- `get_no_repeat_push_condition(min_days_since)`: the throttle stamp is
unset or older than 200 days (the `min_days_since` argument is accepted but
not used by the source, which hard-codes 200). -/
def get_no_repeat_push_condition (min_days_since : Nat) (now : Int)
    (last_sent_at : Option Int) : Bool :=
  match last_sent_at with
  | none => true
  | some t => decide (t < now - 200 * 86400)

/-- State the noon cron job runs against: user rows, the follow join table,
today's date and the clock (seconds). -/
structure BState where
  users : List UserRow
  user_following : List (Nat × Nat)
  today : YMD
  now : Int
deriving DecidableEq

/-- The selection predicate of the followed-user birthday scan, as composed
in `send_upcoming_birthday_of_followed_user_notification`:
`get_upcoming_birthday_users_condition_q(7, 21) &
get_no_repeat_push_condition(210)`. -/
def followedBdayCond (today : YMD) (now : Int) (u : UserRow) : Bool :=
  get_upcoming_birthday_users_condition_q today 7 21 u.birth_date &&
    get_no_repeat_push_condition 210 now u.pre_bday_push_for_followers_last_sent_at

/-- `user.followed_by`: the users owning a follow edge towards `uid`. -/
def followedBy (st : BState) (uid : Nat) : List UserRow :=
  st.users.filter (fun f => decide ((f.id, uid) ∈ st.user_following))

/-- `send_upcoming_birthday_of_followed_user_notification`: selects the users
matching `followedBdayCond`, and for each of them stamps
`pre_bday_push_for_followers_last_sent_at` with the current time and then
pushes to every follower holding a push token.  Returns the new state and
the (token, user-with-birthday) pairs pushed. -/
def send_upcoming_birthday_of_followed_user_notification (st : BState) :
    BState × List (Nat × Nat) :=
  let selected := st.users.filter (followedBdayCond st.today st.now)
  let users' := st.users.map (fun u =>
    if followedBdayCond st.today st.now u then
      { u with pre_bday_push_for_followers_last_sent_at := some st.now }
    else u)
  let pushes := selected.foldr (fun u acc =>
    ((followedBy st u.id).filterMap
      (fun f => f.firebase_push_token.map (fun t => (t, u.id)))) ++ acc) []
  ({ st with users := users' }, pushes)

/-!  Concrete rows exhibiting the marking divergence of the
reservation-notification scan. -/

/-- An owner holding a push token. -/
def ownerWithToken : UserRow :=
  { id := 1, display_name := [], firebase_push_token := some 7,
    birth_date := none, pre_bday_push_for_followers_last_sent_at := none }

/-- The same owner without a push token. -/
def ownerNoToken : UserRow :=
  { ownerWithToken with firebase_push_token := none }

/-- A wish of user 1 reserved by user 2 and not yet announced: it matches the
scan's selection predicate. -/
def reservedWish : Wish :=
  { id := 1, user_id := 1, reserved_by_id := some 2, is_archived := false,
    is_reservation_notification_sent := false }

/-- A wish of user 1 that nobody reserved: it does not match the selection
predicate. -/
def unreservedWish : Wish :=
  { id := 2, user_id := 1, reserved_by_id := none, is_archived := false,
    is_reservation_notification_sent := false }

/-- An active, unreserved wish owned by user 10 (concrete test row). -/
def bikeWish : Wish :=
  { id := 1, user_id := 10, reserved_by_id := none, is_archived := false,
    is_reservation_notification_sent := false }

/-- An archived wish of user 10, reserved by user 20 (concrete test row). -/
def archivedReservedWish : Wish :=
  { id := 3, user_id := 10, reserved_by_id := some 20, is_archived := true,
    is_reservation_notification_sent := false }

/-- A user row named "Bob" (concrete test row). -/
def bobRow : UserRow :=
  { id := 2, display_name := [66, 111, 98], firebase_push_token := none,
    birth_date := none, pre_bday_push_for_followers_last_sent_at := none }

/-- A user row with an upcoming birthday, no push token and no throttle
stamp (concrete test row). -/
def bdayRow : UserRow :=
  { id := 1, display_name := [], firebase_push_token := none,
    birth_date := some ⟨1990, 1, 10⟩,
    pre_bday_push_for_followers_last_sent_at := none }

/-- A scan state containing only `bdayRow`, seen on 2023-01-01 (concrete
test state). -/
def bdayState : BState :=
  { users := [bdayRow], user_following := [], today := ⟨2023, 1, 1⟩, now := 0 }

/-!  ## Auxiliary lemmas -/

lemma eq_of_mem_of_id_eq {ws : List Wish} (hnd : WishIdsNodup ws)
    {w x : Wish} (hw : w ∈ ws) (hx : x ∈ ws) (h : w.id = x.id) : w = x :=
  List.inj_on_of_nodup_map hnd hw hx h

lemma find_by_id_of_mem {ws : List Wish} (hnd : WishIdsNodup ws)
    {w : Wish} (hw : w ∈ ws) :
    ws.find? (fun x => decide (x.id = w.id)) = some w := by
  induction ws with
  | nil => cases hw
  | cons a tl ih =>
    rw [List.find?_cons]
    by_cases ha : a.id = w.id
    · have : a = w := eq_of_mem_of_id_eq hnd (List.mem_cons_self a tl) hw ha
      simp [ha, this]
    · have hw' : w ∈ tl := by
        rcases List.mem_cons.mp hw with h | h
        · exact absurd (h ▸ rfl) ha
        · exact h
      have hnd' : WishIdsNodup tl := by
        have := hnd
        simp only [WishIdsNodup, List.map_cons, List.nodup_cons] at this
        exact this.2
      simp [ha, ih hnd' hw']

lemma find_by_id_eq_none {ws : List Wish} (wid : Nat)
    (h : ∀ w ∈ ws, w.id ≠ wid) :
    ws.find? (fun x => decide (x.id = wid)) = none := by
  rw [List.find?_eq_none]
  intro x hx
  simp [h x hx]

lemma active_nodup {ws : List Wish} (hnd : WishIdsNodup ws) :
    WishIdsNodup (get_active_wish_query ws) :=
  List.Nodup.sublist (List.Sublist.map _ (List.filter_sublist ws)) hnd

lemma mem_active {ws : List Wish} {w : Wish} (hw : w ∈ ws)
    (ha : w.is_archived = false) : w ∈ get_active_wish_query ws := by
  simp [get_active_wish_query, List.mem_filter, hw, ha]

lemma updateWish_nodup {ws : List Wish} (hnd : WishIdsNodup ws)
    (wid : Nat) {f : Wish → Wish} (hf : ∀ w, (f w).id = w.id) :
    WishIdsNodup (updateWish ws wid f) := by
  have : (updateWish ws wid f).map Wish.id = ws.map Wish.id := by
    simp only [updateWish, List.map_map]
    apply List.map_congr_left
    intro w _
    by_cases h : w.id = wid <;> simp [h, hf]
  unfold WishIdsNodup
  rw [this]
  exact hnd

lemma pyLowerChar_upper (c : Nat) : pyLowerChar (pyUpperChar c) = pyLowerChar c := by
  unfold pyLowerChar pyUpperChar
  split <;> split <;> first | rfl | split <;> omega

lemma pyLowerChar_idem (c : Nat) : pyLowerChar (pyLowerChar c) = pyLowerChar c := by
  unfold pyLowerChar
  split <;> first | rfl | split <;> omega

lemma strLower_capitalize (s : List Nat) :
    strLower (strCapitalize s) = strLower s := by
  cases s with
  | nil => rfl
  | cons c rest =>
    simp [strCapitalize, strLower, pyLowerChar_upper, pyLowerChar_idem,
      List.map_map, Function.comp]

lemma strLower_lower (s : List Nat) : strLower (strLower s) = strLower s := by
  simp [strLower, List.map_map, Function.comp, pyLowerChar_idem]

lemma isSubstrOf_iff {p s : List Nat} :
    isSubstrOf p s = true ↔ ∃ l r, s = l ++ p ++ r := by
  constructor
  · intro h
    unfold isSubstrOf at h
    rcases List.any_eq_true.mp h with ⟨i, _, hi⟩
    have htake : (s.drop i).take p.length = p := by
      simpa using hi
    refine ⟨s.take i, (s.drop i).drop p.length, ?_⟩
    conv_lhs => rw [← List.take_append_drop i s, ← List.take_append_drop p.length (s.drop i)]
    rw [htake, List.append_assoc]
  · rintro ⟨l, r, rfl⟩
    unfold isSubstrOf
    apply List.any_eq_true.mpr
    refine ⟨l.length, ?_, ?_⟩
    · simp only [List.mem_range, List.length_append]
      omega
    · have hdrop : (l ++ p ++ r).drop l.length = p ++ r := by
        rw [List.append_assoc, List.drop_left]
      rw [hdrop]
      simp [List.take_left]

lemma likeMatch_lit_append {p : List Nat} (hp : ∀ c ∈ p, c ≠ 37 ∧ c ≠ 95) :
    ∀ t, likeMatch (p ++ [37]) t = true ↔ ∃ r, t = p ++ r := by
  induction p with
  | nil =>
    intro t
    constructor
    · intro _
      exact ⟨t, rfl⟩
    · intro _
      simp only [List.nil_append, likeMatch, if_pos rfl]
      apply List.any_eq_true.mpr
      refine ⟨[], (List.mem_tails _ _).mpr ⟨t, by simp⟩, rfl⟩
  | cons c ps ih =>
    intro t
    have hc := hp c (List.mem_cons_self c ps)
    have hps : ∀ x ∈ ps, x ≠ 37 ∧ x ≠ 95 :=
      fun x hx => hp x (List.mem_cons_of_mem c hx)
    cases t with
    | nil =>
      simp [likeMatch, hc.1]
    | cons a t' =>
      simp only [List.cons_append, likeMatch, if_neg hc.1]
      constructor
      · intro h
        rw [Bool.and_eq_true, Bool.or_eq_true] at h
        obtain ⟨h1, h2⟩ := h
        have hca : c = a := by
          rcases h1 with h1 | h1
          · exact absurd (of_decide_eq_true h1) hc.2
          · simpa using h1
        obtain ⟨r, hr⟩ := (ih hps t').mp h2
        exact ⟨r, by rw [hr, hca]⟩
      · rintro ⟨r, hr⟩
        rw [List.cons_eq_cons] at hr
        obtain ⟨hac, ht'⟩ := hr
        rw [Bool.and_eq_true, Bool.or_eq_true]
        refine ⟨Or.inr (by simp [hac]), (ih hps t').mpr ⟨r, ht'⟩⟩

lemma likeMatch_contains {p : List Nat} (hp : ∀ c ∈ p, c ≠ 37 ∧ c ≠ 95)
    (s : List Nat) :
    likeMatch (37 :: (p ++ [37])) s = true ↔ ∃ l r, s = l ++ p ++ r := by
  constructor
  · intro h
    have h' : s.tails.any (fun t => likeMatch (p ++ [37]) t) = true := by
      simpa [likeMatch] using h
    rcases List.any_eq_true.mp h' with ⟨t, ht, hmt⟩
    rcases (likeMatch_lit_append hp t).mp hmt with ⟨r, rfl⟩
    rcases (List.mem_tails _ _).mp ht with ⟨l, hl⟩
    exact ⟨l, r, by rw [← hl, List.append_assoc]⟩
  · rintro ⟨l, r, rfl⟩
    simp only [likeMatch, if_pos rfl]
    apply List.any_eq_true.mpr
    refine ⟨p ++ r, (List.mem_tails _ _).mpr ⟨l, by rw [List.append_assoc]⟩,
      (likeMatch_lit_append hp _).mpr ⟨r, rfl⟩⟩

lemma strLower_wildcard_free {l : List Nat} (h : ∀ c ∈ l, c ≠ 37 ∧ c ≠ 95) :
    ∀ c ∈ strLower l, c ≠ 37 ∧ c ≠ 95 := by
  intro c hc
  rcases List.mem_map.mp hc with ⟨c₀, hc₀, rfl⟩
  have hc₀' := h c₀ hc₀
  unfold pyLowerChar
  split <;> omega

lemma isLeap_true {y : Nat} (h : isLeap y = true) :
    (y % 4 = 0 ∧ y % 100 ≠ 0) ∨ y % 400 = 0 := by
  simpa [isLeap] using h

lemma isLeap_false {y : Nat} (h : isLeap y = false) :
    ¬((y % 4 = 0 ∧ y % 100 ≠ 0) ∨ y % 400 = 0) := by
  simpa [isLeap] using h

lemma daysBeforeYear_succ_nonleap {y : Nat} (hy : 1 ≤ y) (h : isLeap y = false) :
    daysBeforeYear (y + 1) = daysBeforeYear y + 365 := by
  have h' := isLeap_false h
  unfold daysBeforeYear
  omega

lemma daysBeforeYear_succ_leap {y : Nat} (hy : 1 ≤ y) (h : isLeap y = true) :
    daysBeforeYear (y + 1) = daysBeforeYear y + 366 := by
  rcases isLeap_true h with ⟨h4, h100⟩ | h400
  · unfold daysBeforeYear
    omega
  · have h4 : y % 4 = 0 := by omega
    unfold daysBeforeYear
    omega

lemma daysBeforeYear_succ_ge {y : Nat} (hy : 1 ≤ y) :
    daysBeforeYear y + 365 ≤ daysBeforeYear (y + 1) := by
  cases h : isLeap y
  · rw [daysBeforeYear_succ_nonleap hy h]
  · rw [daysBeforeYear_succ_leap hy h]
    omega

lemma daysBeforeYear_mono {y y' : Nat} (h : y ≤ y') :
    daysBeforeYear y ≤ daysBeforeYear y' := by
  unfold daysBeforeYear
  have h4 : (y - 1) / 4 ≤ (y' - 1) / 4 := Nat.div_le_div_right (by omega)
  have h100 : (y - 1) / 100 ≤ (y' - 1) / 100 := Nat.div_le_div_right (by omega)
  have h400 : (y - 1) / 400 ≤ (y' - 1) / 400 := Nat.div_le_div_right (by omega)
  have hle : (y - 1) / 100 ≤ (y - 1) / 4 := Nat.div_le_div_left (by omega) (by omega)
  have hle' : (y' - 1) / 100 ≤ (y' - 1) / 4 := Nat.div_le_div_left (by omega) (by omega)
  omega

lemma daysBeforeMonth_le_add_one (y y' : Nat) {m : Nat} (hm : m ≤ 12) :
    daysBeforeMonth y m ≤ daysBeforeMonth y' m + 1 := by
  interval_cases m <;>
    cases hy : isLeap y <;> cases hy' : isLeap y' <;>
      simp [daysBeforeMonth, daysInMonth, hy, hy']

lemma daysBeforeMonth_add_day_le {y m d : Nat} (hm1 : 1 ≤ m) (hm2 : m ≤ 12)
    (hd : d ≤ daysInMonth y m) :
    daysBeforeYear y + daysBeforeMonth y m + d ≤ daysBeforeYear (y + 1) ∨ y = 0 := by
  by_cases hy : 1 ≤ y
  · left
    have hcases : daysBeforeYear y + 365 ≤ daysBeforeYear (y + 1) ∧
        (isLeap y = false → daysBeforeYear y + 365 = daysBeforeYear (y + 1)) ∧
        (isLeap y = true → daysBeforeYear y + 366 = daysBeforeYear (y + 1)) := by
      refine ⟨daysBeforeYear_succ_ge hy, ?_, ?_⟩
      · intro h
        rw [daysBeforeYear_succ_nonleap hy h]
      · intro h
        rw [daysBeforeYear_succ_leap hy h]
    obtain ⟨hge, hnl, hl⟩ := hcases
    interval_cases m <;>
      cases hy' : isLeap y <;>
        simp_all [daysBeforeMonth, daysInMonth, hy'] <;> omega
  · right
    omega

lemma toOrd_le_of_year_le {y y' m d : Nat} (hy : 1 ≤ y) (hm : m ≤ 12)
    (h : y ≤ y') :
    toOrd ⟨y, m, d⟩ ≤ toOrd ⟨y', m, d⟩ := by
  induction y', h using Nat.le_induction with
  | base => exact le_rfl
  | succ n hle ih =>
    refine le_trans ih ?_
    unfold toOrd
    simp only
    have hsucc := daysBeforeYear_succ_ge (y := n) (by omega)
    have hbm := daysBeforeMonth_le_add_one n (n + 1) hm
    omega

lemma toOrd_lt_of_year_lt {a b : YMD} (ha : ValidDate a) (hb : ValidDate b)
    (h : a.year < b.year) : toOrd a < toOrd b := by
  obtain ⟨ha1, ha2, ha3, ha4, ha5⟩ := ha
  obtain ⟨hb1, hb2, hb3, hb4, hb5⟩ := hb
  have h1 : toOrd a ≤ daysBeforeYear (a.year + 1) := by
    have hbound := daysBeforeMonth_add_day_le (y := a.year) ha2 ha3 ha5
    unfold toOrd
    omega
  have h2 : daysBeforeYear (a.year + 1) ≤ daysBeforeYear b.year :=
    daysBeforeYear_mono (by omega)
  have h3 : daysBeforeYear b.year < toOrd b := by
    unfold toOrd
    omega
  omega

lemma active_find_eq_none_of_archived {ws : List Wish} (hnd : WishIdsNodup ws)
    {w : Wish} (hw : w ∈ ws) (harch : w.is_archived = true) :
    (get_active_wish_query ws).find? (fun x => decide (x.id = w.id)) = none := by
  apply find_by_id_eq_none
  intro x hx hxe
  have hxw : x ∈ ws := (List.mem_filter.mp hx).1
  have hxa : x.is_archived = false := by simpa using (List.mem_filter.mp hx).2
  have hxeq : x = w := eq_of_mem_of_id_eq hnd hxw hw hxe
  rw [hxeq, harch] at hxa
  cases hxa

lemma mem_updateWish_self {ws : List Wish} {w : Wish} (hw : w ∈ ws)
    {f : Wish → Wish} : f w ∈ updateWish ws w.id f :=
  List.mem_map.mpr ⟨w, hw, by simp⟩

lemma mem_updateWish_other {ws : List Wish} {x : Wish} (hx : x ∈ ws)
    {wid : Nat} (hne : x.id ≠ wid) {f : Wish → Wish} : x ∈ updateWish ws wid f :=
  List.mem_map.mpr ⟨x, hx, by simp [hne]⟩

lemma updateWish_idem {ws : List Wish} (wid : Nat) (r : Option Nat) :
    updateWish (updateWish ws wid (fun x => { x with reserved_by_id := r })) wid
      (fun x => { x with reserved_by_id := r }) =
    updateWish ws wid (fun x => { x with reserved_by_id := r }) := by
  unfold updateWish
  rw [List.map_map]
  apply List.map_congr_left
  intro x _
  by_cases hxid : x.id = wid <;> simp [Function.comp, hxid]

lemma cancel_ok_of_mine_or_free {ws : List Wish} (hnd : WishIdsNodup ws)
    {w : Wish} {wid actor : Nat} (hw : w ∈ ws) (hid : w.id = wid)
    (hres : w.reserved_by_id = none ∨ w.reserved_by_id = some actor) :
    cancel_wish_reservation ws wid actor =
      .ok (updateWish ws wid (fun x => { x with reserved_by_id := none })) := by
  subst hid
  have hfind := find_by_id_of_mem hnd hw
  have hcond : ¬(w.reserved_by_id.isSome ∧ w.reserved_by_id ≠ some actor) := by
    rcases hres with h | h <;> simp [h]
  simp [cancel_wish_reservation, hfind, hcond]

lemma addDays_add (d : YMD) (m n : Nat) :
    addDays d (m + n) = addDays (addDays d m) n := by
  induction n with
  | zero => rfl
  | succ k ih =>
    show addDays d (m + k + 1) = _
    simp [addDays, ih]

lemma mem_foldr_append {α β : Type} (f : α → List β) :
    ∀ {l : List α} {u : α}, u ∈ l → ∀ {x : β}, x ∈ f u →
      x ∈ l.foldr (fun a acc => f a ++ acc) [] := by
  intro l
  induction l with
  | nil =>
    intro u hu
    cases hu
  | cons a tl ih =>
    intro u hu x hx
    simp only [List.foldr_cons, List.mem_append]
    rcases List.mem_cons.mp hu with h | h
    · exact Or.inl (h ▸ hx)
    · exact Or.inr (ih h hx)

/-!  ## Claim theorems -/

/-- C1: for every wish list, wish id and actor, `reserve_wish` fails with
NotFound when no wish has the id or the wish is archived; fails with
Forbidden when the actor owns the wish; fails with Forbidden when the wish
is reserved by someone else; and otherwise succeeds, setting `reserved_by`
to the actor, leaving every other row in place, and repeating the call on
the now self-reserved wish is a no-op success. -/
theorem reserve_wish_spec (ws : List Wish) (wid actor : Nat)
    (hnd : WishIdsNodup ws) :
    ((∀ w ∈ ws, w.id ≠ wid) → reserve_wish ws wid actor = .error .notFound)
  ∧ (∀ w ∈ ws, w.id = wid → w.is_archived = true →
      reserve_wish ws wid actor = .error .notFound)
  ∧ (∀ w ∈ ws, w.id = wid → w.is_archived = false → w.user_id = actor →
      reserve_wish ws wid actor = .error .forbidden)
  ∧ (∀ w ∈ ws, w.id = wid → w.is_archived = false →
      ∀ b, w.reserved_by_id = some b → b ≠ actor →
        reserve_wish ws wid actor = .error .forbidden)
  ∧ (∀ w ∈ ws, w.id = wid → w.is_archived = false → w.user_id ≠ actor →
      (w.reserved_by_id = none ∨ w.reserved_by_id = some actor) →
      ∃ ws', reserve_wish ws wid actor = .ok ws'
        ∧ { w with reserved_by_id := some actor } ∈ ws'
        ∧ (∀ x ∈ ws, x.id ≠ wid → x ∈ ws')
        ∧ reserve_wish ws' wid actor = .ok ws') := by
  refine ⟨?_, ?_, ?_, ?_, ?_⟩
  · intro h
    have hfind : (get_active_wish_query ws).find? (fun x => decide (x.id = wid)) = none :=
      find_by_id_eq_none wid (fun x hx => h x (List.mem_filter.mp hx).1)
    simp [reserve_wish, hfind]
  · intro w hw hid harch
    subst hid
    have hfind := active_find_eq_none_of_archived hnd hw harch
    simp [reserve_wish, hfind]
  · intro w hw hid harch huser
    subst hid
    have hfind := find_by_id_of_mem (active_nodup hnd) (mem_active hw harch)
    simp [reserve_wish, hfind, huser]
  · intro w hw hid harch b hb hbne
    subst hid
    have hfind := find_by_id_of_mem (active_nodup hnd) (mem_active hw harch)
    by_cases huser : w.user_id = actor
    · simp [reserve_wish, hfind, huser]
    · simp [reserve_wish, hfind, huser, hb, hbne]
  · intro w hw hid harch huser hres
    subst hid
    have hfind := find_by_id_of_mem (active_nodup hnd) (mem_active hw harch)
    have hcond : ¬(w.reserved_by_id.isSome ∧ w.reserved_by_id ≠ some actor) := by
      rcases hres with h | h <;> simp [h]
    refine ⟨updateWish ws w.id (fun x => { x with reserved_by_id := some actor }),
      ?_, ?_, ?_, ?_⟩
    · simp [reserve_wish, hfind, huser, hcond]
    · exact mem_updateWish_self hw
    · intro x hx hxid
      exact mem_updateWish_other hx hxid
    · have hnd' : WishIdsNodup (updateWish ws w.id
          (fun x => { x with reserved_by_id := some actor })) :=
        updateWish_nodup hnd _ (fun _ => rfl)
      have hw' : ({ w with reserved_by_id := some actor } : Wish) ∈
          updateWish ws w.id (fun x => { x with reserved_by_id := some actor }) :=
        mem_updateWish_self hw
      have hfind' := find_by_id_of_mem (active_nodup hnd')
        (mem_active hw' (by simpa using harch))
      simp only [reserve_wish] at hfind' ⊢
      rw [hfind']
      simp [huser, updateWish_idem]

/-- Witness for C1: user 20 reserves the unreserved `bikeWish` of user 10
and repeating the call is a no-op success. -/
theorem reserve_wish_spec_witness :
    ∃ ws', reserve_wish [bikeWish] 1 20 = .ok ws'
      ∧ { bikeWish with reserved_by_id := some 20 } ∈ ws'
      ∧ (∀ x ∈ [bikeWish], x.id ≠ 1 → x ∈ ws')
      ∧ reserve_wish ws' 1 20 = .ok ws' :=
  (reserve_wish_spec [bikeWish] 1 20 (by decide)).2.2.2.2 bikeWish
    (by decide) rfl rfl (by decide) (Or.inl rfl)

/-- C3: for every wish list, wish id and actor, `cancel_wish_reservation`
fails with NotFound when no wish has the id; fails with Forbidden when the
wish is reserved by someone other than the actor; and otherwise succeeds,
clearing `reserved_by` (also when it is already unset), leaving every other
row in place, and repeating the call is a no-op success. -/
theorem cancel_wish_reservation_spec (ws : List Wish) (wid actor : Nat)
    (hnd : WishIdsNodup ws) :
    ((∀ w ∈ ws, w.id ≠ wid) → cancel_wish_reservation ws wid actor = .error .notFound)
  ∧ (∀ w ∈ ws, w.id = wid →
      ∀ b, w.reserved_by_id = some b → b ≠ actor →
        cancel_wish_reservation ws wid actor = .error .forbidden)
  ∧ (∀ w ∈ ws, w.id = wid →
      (w.reserved_by_id = none ∨ w.reserved_by_id = some actor) →
      ∃ ws', cancel_wish_reservation ws wid actor = .ok ws'
        ∧ { w with reserved_by_id := none } ∈ ws'
        ∧ (∀ x ∈ ws, x.id ≠ wid → x ∈ ws')
        ∧ cancel_wish_reservation ws' wid actor = .ok ws') := by
  refine ⟨?_, ?_, ?_⟩
  · intro h
    have hfind : ws.find? (fun x => decide (x.id = wid)) = none :=
      find_by_id_eq_none wid h
    simp [cancel_wish_reservation, hfind]
  · intro w hw hid b hb hbne
    subst hid
    have hfind := find_by_id_of_mem hnd hw
    simp [cancel_wish_reservation, hfind, hb, hbne]
  · intro w hw hid hres
    refine ⟨updateWish ws wid (fun x => { x with reserved_by_id := none }),
      cancel_ok_of_mine_or_free hnd hw hid hres, ?_, ?_, ?_⟩
    · subst hid
      exact mem_updateWish_self hw
    · intro x hx hxid
      exact mem_updateWish_other hx hxid
    · subst hid
      have hnd' : WishIdsNodup (updateWish ws w.id
          (fun x => { x with reserved_by_id := none })) :=
        updateWish_nodup hnd _ (fun _ => rfl)
      have hw' : ({ w with reserved_by_id := none } : Wish) ∈
          updateWish ws w.id (fun x => { x with reserved_by_id := none }) :=
        mem_updateWish_self hw
      have hfind' := find_by_id_of_mem hnd' hw'
      simp only [cancel_wish_reservation] at hfind' ⊢
      rw [hfind']
      simp [updateWish_idem]

/-- Witness for C3: user 2 cancels their reservation of `reservedWish`, the
reservation is cleared, and repeating the call is a no-op success. -/
theorem cancel_wish_reservation_spec_witness :
    ∃ ws', cancel_wish_reservation [reservedWish] 1 2 = .ok ws'
      ∧ { reservedWish with reserved_by_id := none } ∈ ws'
      ∧ (∀ x ∈ [reservedWish], x.id ≠ 1 → x ∈ ws')
      ∧ cancel_wish_reservation ws' 1 2 = .ok ws' :=
  (cancel_wish_reservation_spec [reservedWish] 1 2 (by decide)).2.2 reservedWish
    (by decide) rfl (Or.inr rfl)

/-- C10: an archived wish stays visible to reservation cancellation: when it
exists and is unreserved or reserved by the actor, `cancel_wish_reservation`
succeeds and clears the reservation, while `reserve_wish` on the same wish
answers NotFound because its lookup filters archived wishes out. -/
theorem cancel_archived_wish_spec (ws : List Wish) (wid actor : Nat)
    (hnd : WishIdsNodup ws) :
    ∀ w ∈ ws, w.id = wid → w.is_archived = true →
      (w.reserved_by_id = none ∨ w.reserved_by_id = some actor) →
      (∃ ws', cancel_wish_reservation ws wid actor = .ok ws'
        ∧ { w with reserved_by_id := none } ∈ ws')
      ∧ reserve_wish ws wid actor = .error .notFound := by
  intro w hw hid harch hres
  constructor
  · refine ⟨updateWish ws wid (fun x => { x with reserved_by_id := none }),
      cancel_ok_of_mine_or_free hnd hw hid hres, ?_⟩
    subst hid
    exact mem_updateWish_self hw
  · subst hid
    have hfind := active_find_eq_none_of_archived hnd hw harch
    simp [reserve_wish, hfind]

/-- Witness for C10: user 20 cancels their reservation of the archived wish
`archivedReservedWish`, while reserving it answers NotFound. -/
theorem cancel_archived_wish_spec_witness :
    (∃ ws', cancel_wish_reservation [archivedReservedWish] 3 20 = .ok ws'
      ∧ { archivedReservedWish with reserved_by_id := none } ∈ ws')
    ∧ reserve_wish [archivedReservedWish] 3 20 = .error .notFound :=
  cancel_archived_wish_spec [archivedReservedWish] 3 20 (by decide)
    archivedReservedWish (by decide) rfl rfl (Or.inr rfl)

/-- C4: fetching a wish by id succeeds for any caller when it is not
archived; when it is archived the owner still gets it back while every
other caller gets NotFound; an absent id is NotFound. -/
theorem get_wish_spec (ws : List Wish) (wid caller : Nat)
    (hnd : WishIdsNodup ws) :
    ((∀ w ∈ ws, w.id ≠ wid) → get_wish ws wid caller = .error .notFound)
  ∧ (∀ w ∈ ws, w.id = wid → w.is_archived = false →
      get_wish ws wid caller = .ok w)
  ∧ (∀ w ∈ ws, w.id = wid → w.is_archived = true → w.user_id = caller →
      get_wish ws wid caller = .ok w)
  ∧ (∀ w ∈ ws, w.id = wid → w.is_archived = true → w.user_id ≠ caller →
      get_wish ws wid caller = .error .notFound) := by
  refine ⟨?_, ?_, ?_, ?_⟩
  · intro h
    have hfind : ws.find? (fun x => decide (x.id = wid)) = none :=
      find_by_id_eq_none wid h
    simp [get_wish, hfind]
  · intro w hw hid harch
    subst hid
    have hfind := find_by_id_of_mem hnd hw
    simp [get_wish, hfind, harch]
  · intro w hw hid harch howner
    subst hid
    have hfind := find_by_id_of_mem hnd hw
    simp [get_wish, hfind, harch, howner]
  · intro w hw hid harch howner
    subst hid
    have hfind := find_by_id_of_mem hnd hw
    simp [get_wish, hfind, harch, howner]

/-- Witness for C4: the owner (user 10) reads the archived wish back while
user 99 gets NotFound. -/
theorem get_wish_spec_witness :
    get_wish [archivedReservedWish] 3 10 = .ok archivedReservedWish
    ∧ get_wish [archivedReservedWish] 3 99 = .error .notFound :=
  ⟨(get_wish_spec [archivedReservedWish] 3 10 (by decide)).2.2.1
      archivedReservedWish (by decide) rfl rfl rfl,
    (get_wish_spec [archivedReservedWish] 3 99 (by decide)).2.2.2
      archivedReservedWish (by decide) rfl rfl (by decide)⟩

/-- C5: for distinct existing users, following twice succeeds both times and
leaves exactly one edge; unfollowing an absent edge is a no-op success; and
unfollowing after following leaves zero edges. -/
theorem follow_unfollow_idempotent (users : List Nat) (edges : List (Nat × Nat))
    (u v : Nat) (hdist : u ≠ v) (hv : v ∈ users)
    (hpk : edges.count (u, v) ≤ 1) :
    ∃ e₁, follow_user users edges u v = .ok e₁
      ∧ e₁.count (u, v) = 1
      ∧ follow_user users e₁ u v = .ok e₁
      ∧ (edges.count (u, v) = 0 → unfollow_user users edges u v = .ok edges)
      ∧ ∃ e₂, unfollow_user users e₁ u v = .ok e₂ ∧ e₂.count (u, v) = 0 := by
  by_cases hmem : (u, v) ∈ edges
  · refine ⟨edges, ?_, ?_, ?_, ?_, edges.erase (u, v), ?_, ?_⟩
    · simp [follow_user, hv, hmem]
    · have hpos : 0 < edges.count (u, v) := List.count_pos_iff.mpr hmem
      omega
    · simp [follow_user, hv, hmem]
    · intro h0
      have hpos : 0 < edges.count (u, v) := List.count_pos_iff.mpr hmem
      omega
    · simp [unfollow_user, hv, hmem]
    · have hpos : 0 < edges.count (u, v) := List.count_pos_iff.mpr hmem
      rw [List.count_erase_self]
      omega
  · have h0 : edges.count (u, v) = 0 := List.count_eq_zero.mpr hmem
    have hmem1 : (u, v) ∈ edges ++ [(u, v)] := by simp
    refine ⟨edges ++ [(u, v)], ?_, ?_, ?_, ?_,
      (edges ++ [(u, v)]).erase (u, v), ?_, ?_⟩
    · simp [follow_user, hv, hmem, hdist]
    · simp [List.count_append, h0]
    · simp [follow_user, hv, hmem1]
    · intro _
      simp [unfollow_user, hv, hmem]
    · simp [unfollow_user, hv, hmem1]
    · rw [List.count_erase_self, List.count_append, h0]
      simp

/-- Witness for C5: user 1 follows then unfollows the existing user 2
starting from an empty edge table. -/
theorem follow_unfollow_idempotent_witness :
    ∃ e₁, follow_user [1, 2] [] 1 2 = .ok e₁
      ∧ e₁.count (1, 2) = 1
      ∧ follow_user [1, 2] e₁ 1 2 = .ok e₁
      ∧ (([] : List (Nat × Nat)).count (1, 2) = 0 →
          unfollow_user [1, 2] [] 1 2 = .ok [])
      ∧ ∃ e₂, unfollow_user [1, 2] e₁ 1 2 = .ok e₂ ∧ e₂.count (1, 2) = 0 :=
  follow_unfollow_idempotent [1, 2] [] 1 2 (by decide) (by decide) (by decide)

/-- C6: on a state with no self-edge, following oneself never succeeds, and
neither following nor unfollowing can introduce a self-edge. -/
theorem no_self_follow (users : List Nat) (edges : List (Nat × Nat))
    (hns : NoSelfEdge edges) :
    (∀ u, ∀ e', follow_user users edges u u ≠ .ok e')
  ∧ (∀ u v e', follow_user users edges u v = .ok e' → NoSelfEdge e')
  ∧ (∀ u v e', unfollow_user users edges u v = .ok e' → NoSelfEdge e') := by
  refine ⟨?_, ?_, ?_⟩
  · intro u e' hok
    unfold follow_user at hok
    by_cases hu : u ∈ users
    · rw [if_pos hu, if_neg (hns u), if_pos rfl] at hok
      cases hok
    · rw [if_neg hu] at hok
      cases hok
  · intro u v e' hok
    unfold follow_user at hok
    by_cases hu : v ∈ users
    · rw [if_pos hu] at hok
      by_cases hmem : (u, v) ∈ edges
      · rw [if_pos hmem] at hok
        cases hok
        exact hns
      · rw [if_neg hmem] at hok
        by_cases huv : u = v
        · rw [if_pos huv] at hok
          cases hok
        · rw [if_neg huv] at hok
          cases hok
          intro x hx
          rcases List.mem_append.mp hx with h | h
          · exact hns x h
          · have : (x, x) = (u, v) := by simpa using h
            have hxu : x = u := congrArg Prod.fst this
            have hxv : x = v := congrArg Prod.snd this
            exact huv (hxu ▸ hxv ▸ rfl)
    · rw [if_neg hu] at hok
      cases hok
  · intro u v e' hok
    unfold unfollow_user at hok
    by_cases hu : v ∈ users
    · rw [if_pos hu] at hok
      by_cases hmem : (u, v) ∈ edges
      · rw [if_pos hmem] at hok
        cases hok
        intro x hx
        exact hns x (List.mem_of_mem_erase hx)
      · rw [if_neg hmem] at hok
        cases hok
        exact hns
    · rw [if_neg hu] at hok
      cases hok

/-- Witness for C6: with user 1 present and no edges, a self-follow is
rejected and the operations preserve the absence of self-edges. -/
theorem no_self_follow_witness :
    (∀ u, ∀ e', follow_user [1] [] u u ≠ .ok e')
  ∧ (∀ u v e', follow_user [1] [] u v = .ok e' → NoSelfEdge e')
  ∧ (∀ u v e', unfollow_user [1] [] u v = .ok e' → NoSelfEdge e') :=
  no_self_follow [1] [] (by intro u h; cases h)

/-- C7 fails as stated: the query "B_b" (codes 66, 95, 98) contains the
LIKE wildcard `_`, so the handler returns the user named "Bob" although
"b_b" is not a literal substring of the lowercased name. -/
theorem search_users_cex :
    bobRow ∈ search_users [bobRow] 1 [66, 95, 98]
    ∧ ¬ ∃ l r, strLower bobRow.display_name =
        l ++ strLower (pyStrip [66, 95, 98]) ++ r := by
  constructor
  · decide
  · intro h
    have := isSubstrOf_iff.mpr h
    exact absurd this (by decide)

/-- C7, amended: every search result is a stored user other than the caller
whose lowercased display name matches `%` ++ lowercased-stripped-query ++
`%` under SQL LIKE semantics (unescaped `%` and `_` in the query act as
wildcards); when the stripped query holds no wildcard character this is
exactly literal case-insensitive substring containment; at most 20 rows
come back; and an empty or whitespace-only query yields the empty
result. -/
theorem search_users_spec (users : List UserRow) (cu : Nat) (q : List Nat) :
    (∀ u ∈ search_users users cu q,
        u ∈ users ∧ u.id ≠ cu ∧
        likeMatch (37 :: (strLower (pyStrip q) ++ [37]))
          (strLower u.display_name) = true)
  ∧ (∀ u ∈ search_users users cu q,
      (∀ c ∈ pyStrip q, c ≠ 37 ∧ c ≠ 95) →
      ∃ l r, strLower u.display_name = l ++ strLower (pyStrip q) ++ r)
  ∧ (search_users users cu q).length ≤ 20
  ∧ ((∀ c ∈ q, isPySpace c = true) → search_users users cu q = []) := by
  have hsound : ∀ u ∈ search_users users cu q,
      u ∈ users ∧ u.id ≠ cu ∧
      likeMatch (37 :: (strLower (pyStrip q) ++ [37]))
        (strLower u.display_name) = true := by
    intro u hu
    unfold search_users at hu
    by_cases hq : pyStrip q = []
    · rw [if_pos hq] at hu
      cases hu
    · rw [if_neg hq] at hu
      have hu' := List.mem_of_mem_take hu
      have hmem := (List.mem_filter.mp hu').1
      have hpred := (List.mem_filter.mp hu').2
      rw [Bool.and_eq_true] at hpred
      obtain ⟨hid, hmatch⟩ := hpred
      refine ⟨hmem, by simpa using hid, ?_⟩
      rw [Bool.or_eq_true] at hmatch
      rcases hmatch with h | h
      · unfold icontains at h
        rwa [strLower_capitalize] at h
      · unfold icontains at h
        rwa [strLower_lower] at h
  refine ⟨hsound, ?_, ?_, ?_⟩
  · intro u hu hwf
    exact (likeMatch_contains (strLower_wildcard_free hwf) _).mp
      (hsound u hu).2.2
  · unfold search_users
    by_cases hq : pyStrip q = []
    · simp [hq]
    · rw [if_neg hq]
      rw [List.length_take]
      omega
  · intro hws
    have h1 : q.dropWhile isPySpace = [] := List.dropWhile_eq_nil_iff.mpr hws
    have hq : pyStrip q = [] := by
      unfold pyStrip
      rw [h1]
      simp
    unfold search_users
    rw [if_pos hq]

/-- Witness for the amended C7: the query " bOB " (surrounding blanks,
mixed case, no wildcard) finds the row named "Bob" for viewer 1, and the
wildcard-free clause gives literal substring containment. -/
theorem search_users_spec_witness :
    (∀ u ∈ search_users [bobRow] 1 [32, 98, 79, 66, 32],
        u ∈ [bobRow] ∧ u.id ≠ 1 ∧
        likeMatch (37 :: (strLower (pyStrip [32, 98, 79, 66, 32]) ++ [37]))
          (strLower u.display_name) = true)
  ∧ (∀ u ∈ search_users [bobRow] 1 [32, 98, 79, 66, 32],
      (∀ c ∈ pyStrip [32, 98, 79, 66, 32], c ≠ 37 ∧ c ≠ 95) →
      ∃ l r, strLower u.display_name =
        l ++ strLower (pyStrip [32, 98, 79, 66, 32]) ++ r)
  ∧ (search_users [bobRow] 1 [32, 98, 79, 66, 32]).length ≤ 20
  ∧ ((∀ c ∈ [32, 98, 79, 66, 32], isPySpace c = true) →
      search_users [bobRow] 1 [32, 98, 79, 66, 32] = []) :=
  search_users_spec [bobRow] 1 [32, 98, 79, 66, 32]

/-- C2 (marking divergence of the reservation-notification scan): with one
owner holding a push token, one reserved-unannounced wish and one
unreserved wish, the scan sets the notification flag on BOTH rows, although
only the first matches the selection predicate; and with the same owner
holding no token the matching wish is left unmarked.  The claimed set-based
update guarded by the selection predicate would mark exactly the matching
row in both runs. -/
theorem send_reservation_notifincations_divergence :
    (wishAwaitingReservationNotice unreservedWish = false
      ∧ (send_reservation_notifincations
          { users := [ownerWithToken], wishes := [reservedWish, unreservedWish] }).1.wishes =
        [{ reservedWish with is_reservation_notification_sent := true },
         { unreservedWish with is_reservation_notification_sent := true }])
  ∧ (wishAwaitingReservationNotice reservedWish = true
      ∧ (send_reservation_notifincations
          { users := [ownerNoToken], wishes := [reservedWish] }).1.wishes =
        [reservedWish]) := by
  refine ⟨⟨by decide, by decide⟩, by decide, by decide⟩

set_option maxRecDepth 8000 in
/-- C8 fails as stated: on 2023-06-01, for a birth date of May 10, the
function answers 2024-05-09 — a date that is not an occurrence of the birth
month and day at all, because `timedelta(days=365)` crosses 2024's leap
day. -/
theorem get_next_birthday_cex :
    get_next_birthday ⟨1990, 5, 10⟩ ⟨⟨2023, 6, 1⟩, 0⟩ = some ⟨⟨2024, 5, 9⟩, 0⟩
    ∧ ¬ NextBirthdayIsEarliestUpcoming ⟨1990, 5, 10⟩ ⟨⟨2023, 6, 1⟩, 0⟩
        ⟨⟨2024, 5, 9⟩, 0⟩ := by
  have hadd : addDays ⟨2023, 5, 10⟩ 365 = ⟨2024, 5, 9⟩ := by
    have e1 : (365 : Nat) = 100 + 265 := by norm_num
    have e2 : (265 : Nat) = 100 + 165 := by norm_num
    have e3 : (165 : Nat) = 100 + 65 := by norm_num
    have h1 : addDays ⟨2023, 5, 10⟩ 100 = ⟨2023, 8, 18⟩ := by decide
    have h2 : addDays ⟨2023, 8, 18⟩ 100 = ⟨2023, 11, 26⟩ := by decide
    have h3 : addDays ⟨2023, 11, 26⟩ 100 = ⟨2024, 3, 5⟩ := by decide
    have h4 : addDays ⟨2024, 3, 5⟩ 65 = ⟨2024, 5, 9⟩ := by decide
    rw [e1, addDays_add, h1, e2, addDays_add, h2, e3, addDays_add, h3, h4]
  constructor
  · simp only [get_next_birthday]
    rw [if_pos (by decide), if_pos (by decide), hadd]
  · intro h
    exact absurd h.2.1 (by decide)

/-- C8, amended: when the current-year occurrence of the birth date (at
midnight) is not earlier than the current moment, `get_next_birthday`
returns it and it is the earliest occurrence of that month and day not in
the past; when the current-year occurrence is already past, the function
instead returns that midnight plus exactly 365 days (which can fall on a
different month and day across a leap year, and skips today's occurrence
once the time of day has passed midnight); and when the birth month and day
do not exist in the current year (February 29 outside a leap year) the
datetime constructor raises ValueError, i.e. the function returns no
value. -/
theorem get_next_birthday_amended (birth_date : YMD) (now : DT)
    (hb : ValidDate birth_date) (hn : ValidDate now.d) :
    (birth_date.day ≤ daysInMonth now.d.year birth_date.month →
      dtVal now ≤ 86400 * toOrd ⟨now.d.year, birth_date.month, birth_date.day⟩ →
      get_next_birthday birth_date now =
        some ⟨⟨now.d.year, birth_date.month, birth_date.day⟩, 0⟩
      ∧ NextBirthdayIsEarliestUpcoming birth_date now
          ⟨⟨now.d.year, birth_date.month, birth_date.day⟩, 0⟩)
  ∧ (birth_date.day ≤ daysInMonth now.d.year birth_date.month →
      86400 * toOrd ⟨now.d.year, birth_date.month, birth_date.day⟩ < dtVal now →
      get_next_birthday birth_date now =
        some ⟨addDays ⟨now.d.year, birth_date.month, birth_date.day⟩ 365, 0⟩)
  ∧ (daysInMonth now.d.year birth_date.month < birth_date.day →
      get_next_birthday birth_date now = none) := by
  obtain ⟨hb1, hb2, hb3, hb4, hb5⟩ := hb
  have hnow : dtVal now = 86400 * toOrd now.d + now.sec := rfl
  have hnb : dtVal ⟨⟨now.d.year, birth_date.month, birth_date.day⟩, 0⟩
      = 86400 * toOrd ⟨now.d.year, birth_date.month, birth_date.day⟩ + 0 := rfl
  refine ⟨?_, ?_, ?_⟩
  · intro hcon hle
    have hvc : 1 ≤ birth_date.month ∧ birth_date.month ≤ 12 ∧ 1 ≤ birth_date.day ∧
        birth_date.day ≤ daysInMonth now.d.year birth_date.month :=
      ⟨hb2, hb3, hb4, hcon⟩
    have hnotlt :
        ¬ (dtVal ⟨⟨now.d.year, birth_date.month, birth_date.day⟩, 0⟩ < dtVal now) := by
      omega
    constructor
    · simp only [get_next_birthday]
      rw [if_pos hvc, if_neg hnotlt]
    · refine ⟨rfl, rfl, ⟨hn.1, hb2, hb3, hb4, hcon⟩, by omega, ?_⟩
      intro y hvy hge
      by_cases hy : now.d.year ≤ y
      · exact toOrd_le_of_year_le hn.1 hb3 hy
      · exfalso
        have hlt : toOrd ⟨y, birth_date.month, birth_date.day⟩ < toOrd now.d :=
          toOrd_lt_of_year_lt hvy hn (by show y < now.d.year; omega)
        omega
  · intro hcon hlt
    have hvc : 1 ≤ birth_date.month ∧ birth_date.month ≤ 12 ∧ 1 ≤ birth_date.day ∧
        birth_date.day ≤ daysInMonth now.d.year birth_date.month :=
      ⟨hb2, hb3, hb4, hcon⟩
    have hl : dtVal ⟨⟨now.d.year, birth_date.month, birth_date.day⟩, 0⟩ < dtVal now := by
      omega
    simp only [get_next_birthday]
    rw [if_pos hvc, if_pos hl]
  · intro hgt
    simp only [get_next_birthday]
    rw [if_neg]
    rintro ⟨_, _, _, h4⟩
    omega

/-- Witness for the amended C8: on 2023-04-01 the May 10 birthday resolves
to 2023-05-10, the earliest upcoming occurrence; and a February 29 birth
date yields no value in the non-leap year 2023. -/
theorem get_next_birthday_amended_witness :
    (get_next_birthday ⟨1990, 5, 10⟩ ⟨⟨2023, 4, 1⟩, 0⟩ = some ⟨⟨2023, 5, 10⟩, 0⟩
      ∧ NextBirthdayIsEarliestUpcoming ⟨1990, 5, 10⟩ ⟨⟨2023, 4, 1⟩, 0⟩
          ⟨⟨2023, 5, 10⟩, 0⟩)
    ∧ get_next_birthday ⟨2000, 2, 29⟩ ⟨⟨2023, 1, 1⟩, 0⟩ = none :=
  ⟨(get_next_birthday_amended ⟨1990, 5, 10⟩ ⟨⟨2023, 4, 1⟩, 0⟩ (by decide)
      (by decide)).1 (by decide) (by decide),
    (get_next_birthday_amended ⟨2000, 2, 29⟩ ⟨⟨2023, 1, 1⟩, 0⟩ (by decide)
      (by decide)).2.2 (by decide)⟩

/-- C9: every user matched by the followed-user birthday selection gets the
throttle stamp set to the current time — with no condition on their
followers — and every follower holding a push token is pushed to; with the
stamp set, the selection predicate is false for any run during the next 200
days, so the user is not re-selected. -/
theorem followed_birthday_scan_spec (st : BState) (u : UserRow)
    (hu : u ∈ st.users) (hsel : followedBdayCond st.today st.now u = true) :
    ({ u with pre_bday_push_for_followers_last_sent_at := some st.now } ∈
        (send_upcoming_birthday_of_followed_user_notification st).1.users)
  ∧ (∀ f ∈ st.users, (f.id, u.id) ∈ st.user_following →
      ∀ t, f.firebase_push_token = some t →
        (t, u.id) ∈ (send_upcoming_birthday_of_followed_user_notification st).2)
  ∧ (∀ d : YMD, ∀ n : Int, n < st.now + 200 * 86400 →
      followedBdayCond d n
        { u with pre_bday_push_for_followers_last_sent_at := some st.now } = false) := by
  refine ⟨?_, ?_, ?_⟩
  · simp only [send_upcoming_birthday_of_followed_user_notification]
    exact List.mem_map.mpr ⟨u, hu, by simp [hsel]⟩
  · intro f hf hedge t ht
    simp only [send_upcoming_birthday_of_followed_user_notification]
    apply mem_foldr_append _ (List.mem_filter.mpr ⟨hu, hsel⟩)
    apply List.mem_filterMap.mpr
    refine ⟨f, ?_, ?_⟩
    · exact List.mem_filter.mpr ⟨hf, by simp [hedge]⟩
    · rw [ht]
      rfl
  · intro d n hn
    have hd : ¬ (st.now < n - 200 * 86400) := by omega
    show (get_upcoming_birthday_users_condition_q d 7 21 u.birth_date &&
        decide (st.now < n - 200 * 86400)) = false
    rw [decide_eq_false hd]
    exact Bool.and_false _

/-- Witness for C9: the scan over `bdayState` stamps `bdayRow` (who has no
followers and no token) and would push to any token-holding follower; the
stamped row is not re-selected within 200 days. -/
theorem followed_birthday_scan_spec_witness :
    ({ bdayRow with pre_bday_push_for_followers_last_sent_at := some bdayState.now } ∈
        (send_upcoming_birthday_of_followed_user_notification bdayState).1.users)
  ∧ (∀ f ∈ bdayState.users, (f.id, bdayRow.id) ∈ bdayState.user_following →
      ∀ t, f.firebase_push_token = some t →
        (t, bdayRow.id) ∈ (send_upcoming_birthday_of_followed_user_notification bdayState).2)
  ∧ (∀ d : YMD, ∀ n : Int, n < bdayState.now + 200 * 86400 →
      followedBdayCond d n
        { bdayRow with pre_bday_push_for_followers_last_sent_at := some bdayState.now } = false) :=
  followed_birthday_scan_spec bdayState bdayRow (by decide) (by decide)

end Wishes
